import Mathlib

/-!
Verification of the multiplex whole-slide-image registration pipeline
(`reg_wsi/register_multiplex_wsi.py`, `reg_multiplex_docker/reg_multiplex.py`,
`reg_docker/reg.py`) against its specification.

Frames are modelled as 2D integer rasters: a height, a width, and a total
lookup function (reads outside the bounds are never used by the modelled
operations, which guard or wrap every index exactly as the numpy code does).
-/

namespace MultiplexReg

/-- A 2D raster: `data i j` is the pixel at row `i`, column `j`
(row index = numpy axis 0, column index = numpy axis 1). -/
structure Frame where
  h : Nat
  w : Nat
  data : Nat → Nat → Int

/-- `pad_frame` from `register_multiplex_wsi.py` (lines 58-64); the
two docker scripts' `pad_frame(f1, mx, my)` is the same code with the pair
split into two arguments.  Each axis is padded independently with a
trailing zero-valued border whenever the frame is smaller than the target;
a frame already at (or beyond) the target on an axis is left untouched. -/
def pad_frame (f : Frame) (xy : Nat × Nat) : Frame :=
  let f1 : Frame :=
    if f.h < xy.1 then
      { h := xy.1, w := f.w, data := fun i j => if i < f.h then f.data i j else 0 }
    else f
  if f1.w < xy.2 then
    { h := f1.h, w := xy.2, data := fun i j => if j < f1.w then f1.data i j else 0 }
  else f1

/-- `get_max_frame_xy` from `register_multiplex_wsi.py` (lines 67-77):
the canonical canvas is the pair (max height, max width) over the whole
input set (the Python `max` raises on an empty list; the fold's base 0 is
only reached in that case, and every claim below quantifies over members). -/
def get_max_frame_xy (frames : List Frame) : Nat × Nat :=
  (frames.foldl (fun m f => max m f.h) 0, frames.foldl (fun m f => max m f.w) 0)

lemma base_le_foldl_max {α : Type} (g : α → Nat) (l : List α) (a : Nat) :
    a ≤ l.foldl (fun m f => max m (g f)) a := by
  induction l generalizing a with
  | nil => simp
  | cons y ys ih =>
    simp only [List.foldl_cons]
    exact le_trans (le_max_left a (g y)) (ih (max a (g y)))

lemma le_foldl_max {α : Type} (g : α → Nat) {l : List α} {a : Nat} {x : α}
    (hx : x ∈ l) : g x ≤ l.foldl (fun m f => max m (g f)) a := by
  induction l generalizing a with
  | nil => cases hx
  | cons y ys ih =>
    rcases List.mem_cons.mp hx with rfl | hmem
    · simp only [List.foldl_cons]
      exact le_trans (le_max_right a (g x)) (base_le_foldl_max g ys (max a (g x)))
    · exact ih hmem

lemma foldl_max_le {α : Type} (g : α → Nat) {l : List α} {a b : Nat} (ha : a ≤ b)
    (h : ∀ x ∈ l, g x ≤ b) : l.foldl (fun m f => max m (g f)) a ≤ b := by
  induction l generalizing a with
  | nil => simpa using ha
  | cons y ys ih =>
    simp only [List.foldl_cons]
    exact ih (max_le ha (h y (List.mem_cons_self y ys)))
      fun x hx => h x (List.mem_cons_of_mem y hx)

/-- Every member's height is bounded by the canonical height. -/
lemma mem_le_max_h {frames : List Frame} {f : Frame} (hf : f ∈ frames) :
    f.h ≤ (get_max_frame_xy frames).1 :=
  le_foldl_max Frame.h hf

/-- Every member's width is bounded by the canonical width. -/
lemma mem_le_max_w {frames : List Frame} {f : Frame} (hf : f ∈ frames) :
    f.w ≤ (get_max_frame_xy frames).2 :=
  le_foldl_max Frame.w hf

/-- Shape of the padded frame when the target dominates the input shape. -/
lemma pad_frame_shape {f : Frame} {xy : Nat × Nat} (hh : f.h ≤ xy.1) (hw : f.w ≤ xy.2) :
    (pad_frame f xy).h = xy.1 ∧ (pad_frame f xy).w = xy.2 := by
  unfold pad_frame
  rcases lt_or_eq_of_le hh with hh' | hh' <;> rcases lt_or_eq_of_le hw with hw' | hw' <;>
    simp [hh', hw']

/-- Pixels inside the original bounds are preserved by `pad_frame`:
the original content stays anchored at the origin (no crop, no leading pad). -/
lemma pad_frame_data_in {f : Frame} {xy : Nat × Nat} {i j : Nat}
    (hi : i < f.h) (hj : j < f.w) :
    (pad_frame f xy).data i j = f.data i j := by
  unfold pad_frame
  by_cases hh' : f.h < xy.1 <;> by_cases hw' : f.w < xy.2 <;> simp [hh', hw', hi, hj]

/-- Pixels of the canonical canvas beyond the original bounds (on either axis)
are zero in the padded frame. -/
lemma pad_frame_data_out {f : Frame} {xy : Nat × Nat} {i j : Nat}
    (hi2 : i < xy.1) (hj2 : j < xy.2) (hout : f.h ≤ i ∨ f.w ≤ j) :
    (pad_frame f xy).data i j = 0 := by
  unfold pad_frame
  rcases hout with hi | hj
  · have hh' : f.h < xy.1 := lt_of_le_of_lt hi hi2
    by_cases hw' : f.w < xy.2 <;> simp [hh', hw', Nat.not_lt.mpr hi]
  · have hw' : f.w < xy.2 := lt_of_le_of_lt hj hj2
    by_cases hh' : f.h < xy.1 <;> simp [hh', hw', Nat.not_lt.mpr hj]

/-- The strided-subsampling view `f[0::d, 0::d]` (register_multiplex_wsi.py
lines 153 and 170): element `(i, j)` of the view is element `(d*i, d*j)` of `f`,
and the view's extent on an axis of length `n` is `⌈n / d⌉ = (n + d - 1) / d`. -/
def decimate (d : Nat) (f : Frame) : Frame :=
  { h := (f.h + d - 1) / d, w := (f.w + d - 1) / d,
    data := fun i j => f.data (d * i) (d * j) }

/-- `down_sample = max(im_fix.shape) // 10000 + 1` (register_multiplex_wsi.py
line 152; reg.py line 66 computes the same from the padded pair's shape). -/
def down_sample (f : Frame) : Nat := max f.h f.w / 10000 + 1

/-- numpy's `astype(int)` on a float: truncation toward zero. -/
def astype_int (q : ℚ) : Int := if 0 ≤ q then ⌊q⌋ else ⌈q⌉

/-- `np.roll(a, (s0, s1), [0, 1])` (register_multiplex_wsi.py lines 180 and 187):
circular shift of the rows by `s0` and the columns by `s1`; output pixel `(i, j)`
is input pixel `((i - s0) mod h, (j - s1) mod w)`. -/
def np_roll (f : Frame) (s : Int × Int) : Frame :=
  { h := f.h, w := f.w,
    data := fun i j =>
      f.data (((i : Int) - s.1) % (f.h : Int)).toNat (((j : Int) - s.2) % (f.w : Int)).toNat }

/-- `np.roll(im, shift.astype(int), [0,1])`: the recorded real-valued shift is
truncated to integer pixels and applied as a wraparound translation. -/
def apply_shift (f : Frame) (s : ℚ × ℚ) : Frame :=
  np_roll f (astype_int s.1, astype_int s.2)

/-- The result triple of `phase_cross_correlation` / `register_translation`:
a (dy, dx) shift in the (decimated) input coordinate system, an error scalar
and a diagnostic phase value.  The estimator's internals (an skimage call)
are outside the repository, so it is kept abstract: the orchestration theorems
hold for every estimator. -/
def Estimator : Type := Frame → Frame → Nat → (ℚ × ℚ) × ℚ × ℚ

/-- A non-anchor imaging round as the main loop sees it: its round id, its
reference (DAPI) frame and its marker frames, all already grayscale-reduced
and padded to the canonical canvas. -/
structure MovRound where
  id : String
  dapi : Frame
  markers : List Frame

/-- What the main loop produces for one moving round. -/
structure RoundResult where
  id : String
  shift : ℚ × ℚ
  error : ℚ
  dapiOut : Frame
  markerOuts : List Frame

/-- One iteration of the `while dapis:` loop of `register_multiplex_wsi.py`
(lines 163-190): decimate the moving DAPI, run the estimator against the
decimated fixed DAPI with `upsample_factor = down_sample`, rescale the shift by
the factor on both axes, and roll the DAPI and every marker frame of the round
by that single shift. -/
def register_round (est : Estimator) (d : Nat) (im_fix_small : Frame)
    (mov : MovRound) : RoundResult :=
  let im_mov_small := decimate d mov.dapi
  let r := est im_fix_small im_mov_small d
  let shift : ℚ × ℚ := (r.1.1 * d, r.1.2 * d)
  { id := mov.id
    shift := shift
    error := r.2.1
    dapiOut := apply_shift mov.dapi shift
    markerOuts := mov.markers.map fun f => apply_shift f shift }

/-- The whole `while dapis:` loop: `dapis.pop()` takes the last element first,
so the rounds are processed in reverse list order. -/
def process_rounds (est : Estimator) (d : Nat) (im_fix_small : Frame)
    (movs : List MovRound) : List RoundResult :=
  movs.reverse.map (register_round est d im_fix_small)

/-- In-place dict update `errors[k] = v` on an association list whose keys are
already present (the dict is pre-seeded with every round id). -/
def upd_errors (tbl : List (String × ℚ)) (k : String) (v : ℚ) : List (String × ℚ) :=
  tbl.map fun p => if p.1 = k then (k, v) else p

/-- The error bookkeeping of `main` (register_multiplex_wsi.py lines 158-160
and 177): a dict seeded with 0 for every round id — the anchor round included —
then updated with each moving round's error. -/
def main_errors (rounds : List String) (recs : List (String × ℚ)) :
    List (String × ℚ) :=
  recs.foldl (fun tbl p => upd_errors tbl p.1 p.2) (rounds.map fun r => (r, 0))

/-- The displacement report (register_multiplex_wsi.py lines 193-195):
`sorted(errors.items(), key=lambda item: item[1], reverse=True)` — the error
table sorted by error value, descending (Python's sort is stable). -/
def displacement_report (errors : List (String × ℚ)) : List (String × ℚ) :=
  errors.mergeSort fun a b => decide (b.2 ≤ a.2)

/-- Anchor selection (register_multiplex_wsi.py line 139, reg_multiplex.py
line 119): `fix_dapi = dapis.pop()` — the last element of the enumerated
DAPI list, `none` when the list is empty. -/
def select_anchor (dapis : List String) : Option String := dapis.getLast?

/-- `mem_check` of register_multiplex_wsi.py (lines 80-89): the run proceeds
iff twice the largest file size is at most 80% of available memory.
`some b`: the check ran and returned `b`; `none`: Python's `max` raised on an
empty list, which also aborts the run.  Float arithmetic is modelled exactly
over ℚ. -/
def mem_check (sizes : List Nat) (avail : Nat) : Option Bool :=
  match sizes with
  | [] => none
  | s :: rest =>
    let msize := (s :: rest).foldl (fun m x => max m x) 0
    some (decide (¬ ((msize : ℚ) * 2 > (avail : ℚ) * (4 / 5))))

/-- The memory check of reg_multiplex.py (lines 83-90) and reg.py (lines
95-102): the sizes of the FIRST TWO enumerated files are summed and compared
against 75% of available memory; `none` when fewer than two files exist
(Python raises an IndexError on `tif_files[1]`). -/
def mem_check_first_two (sizes : List Nat) (avail : Nat) : Option Bool :=
  match sizes with
  | s1 :: s2 :: _ => some (decide (¬ ((s1 : ℚ) + (s2 : ℚ) > (avail : ℚ) * (3 / 4))))
  | _ => none

/-- The quantity the spec's memory-budget sentence talks about: the combined
size of the two largest frames of the set (largest plus second largest). -/
def two_largest_sum (sizes : List Nat) : Nat :=
  let m1 := sizes.foldl (fun m x => max m x) 0
  m1 + (sizes.erase m1).foldl (fun m x => max m x) 0

/-- Python string comparison is lexicographic on code points, which is exactly
the lexicographic order on the strings' character lists; `max(rounds)` is a
left fold of the binary max over the list (Python's `max` raises on an empty
list; the `[]` base is only reached in that case). -/
def py_str_max (l : List (List Char)) : List Char :=
  l.foldl (fun m x => if m < x then x else m) []

/-- The round-count guard of register_multiplex_wsi.py (lines 115-128): the
run proceeds past the guards iff `str(len(dapis)) == max(rounds)` (string
equality against the lexicographic maximum round id) and `len(dapis) >= 2`.
Round ids appear as their character lists.  In reg_multiplex.py (lines
101-106) the first comparison only prints a warning: only the
`len(dapis) >= 2` guard aborts there. -/
def counts_guard (rounds : List (List Char)) (numDapis : Nat) : Bool :=
  ((toString numDapis).data == py_str_max rounds) && decide (2 ≤ numDapis)

/-- reg_multiplex.py's variant of the guard: the mismatch against
`max(rounds)` is printed but not fatal. -/
def counts_guard_multiplex (numDapis : Nat) : Bool :=
  decide (2 ≤ numDapis)

/-- The spec's recoverable estimator failure for degenerate input
(`LowSignalError`). -/
inductive RegFailure where
  | lowSignal
deriving DecidableEq

/-- Modelled from the spec: the PhaseCorrelationEstimator's internals (the
`phase_cross_correlation` / `register_translation` library call) are not part
of this repository; per the spec it may "signal `LowSignalError` rather than
returning an undefined shift" on near-zero-energy input.  An estimator of this
shape either signals a failure or returns the usual (shift, error, phase)
triple. -/
def EstimatorE : Type := Frame → Frame → Nat → Except RegFailure ((ℚ × ℚ) × ℚ × ℚ)

/-- One iteration of the `while dapis:` loop when the estimator may signal:
the loop body of register_multiplex_wsi.py (lines 163-190) calls the estimator
with no `try`/`except` around it, so a signalled failure propagates. -/
def register_round_e (est : EstimatorE) (d : Nat) (im_fix_small : Frame)
    (mov : MovRound) : Except RegFailure RoundResult :=
  match est im_fix_small (decimate d mov.dapi) d with
  | .error e => .error e
  | .ok r =>
    let shift : ℚ × ℚ := (r.1.1 * d, r.1.2 * d)
    .ok { id := mov.id
          shift := shift
          error := r.2.1
          dapiOut := apply_shift mov.dapi shift
          markerOuts := mov.markers.map fun f => apply_shift f shift }

/-- The whole loop under a signalling estimator: rounds are processed in pop
(reverse) order and, since `main` installs no handler, the first signalled
failure aborts everything that remains. -/
def process_rounds_e (est : EstimatorE) (d : Nat) (im_fix_small : Frame)
    (movs : List MovRound) : Except RegFailure (List RoundResult) :=
  movs.reverse.mapM (register_round_e est d im_fix_small)

/-- Executable uniformity test: every pixel equals the one at the origin. -/
def uniformB (f : Frame) : Bool :=
  (List.range f.h).all fun i => (List.range f.w).all fun j => f.data i j == f.data 0 0

/-- Modelled from the spec: a concrete estimator of the specified failure
behavior — it signals `LowSignalError` exactly on uniform (constant) input,
and otherwise returns some well-defined triple (here the zero triple; the
claims below do not depend on the non-degenerate values). -/
def est_spec : EstimatorE := fun im_fix im_mov _ =>
  if uniformB im_fix || uniformB im_mov then .error .lowSignal
  else .ok ((0, 0), 0, 0)

/-- The error recorded for round `r` after a sequence of dict updates
`errors[k] = v`, starting from the seeded 0 (last update wins). -/
def err_of (recs : List (String × ℚ)) (r : String) : ℚ :=
  recs.foldl (fun acc p => if r = p.1 then p.2 else acc) 0

/-! Small concrete frames and a trivial estimator, used by the witness and
counterexample theorems. -/

def frA : Frame := ⟨2, 3, fun i j => ((i * 10 + j : Nat) : Int)⟩

def frB : Frame := ⟨4, 1, fun _ _ => 7⟩

def fr_textured : Frame := ⟨2, 2, fun i j => ((i * 2 + j : Nat) : Int)⟩

def fr_uniform_a : Frame := ⟨2, 2, fun _ _ => 3⟩

def fr_uniform_b : Frame := ⟨2, 2, fun _ _ => 5⟩

def est0 : Estimator := fun _ _ _ => ((0, 0), 0, 0)

/-! ## Claim theorems -/

/-- C1: for every input set, every output frame's dimensions equal the
canonical (max height, max width) computed in one pass over the entire input
set; the output is reached by zero-padding only on the trailing edge of each
axis: the original content is preserved anchored at the origin (no crop, no
leading-edge padding) and every canvas pixel beyond the original bounds is
zero. -/
theorem C1_canonical_canvas (frames : List Frame) (f : Frame) (hf : f ∈ frames) :
    (pad_frame f (get_max_frame_xy frames)).h = (get_max_frame_xy frames).1 ∧
    (pad_frame f (get_max_frame_xy frames)).w = (get_max_frame_xy frames).2 ∧
    (∀ i j, i < f.h → j < f.w →
      (pad_frame f (get_max_frame_xy frames)).data i j = f.data i j) ∧
    (∀ i j, i < (get_max_frame_xy frames).1 → j < (get_max_frame_xy frames).2 →
      f.h ≤ i ∨ f.w ≤ j →
      (pad_frame f (get_max_frame_xy frames)).data i j = 0) := by
  obtain ⟨h1, h2⟩ := pad_frame_shape (mem_le_max_h hf) (mem_le_max_w hf)
  exact ⟨h1, h2, fun i j hi hj => pad_frame_data_in hi hj,
    fun i j hi hj hout => pad_frame_data_out hi hj hout⟩

/-- Witness for C1 at a concrete two-frame set. -/
theorem C1_canonical_canvas_witness :
    frA ∈ [frA, frB] ∧
    ((pad_frame frA (get_max_frame_xy [frA, frB])).h = (get_max_frame_xy [frA, frB]).1 ∧
    (pad_frame frA (get_max_frame_xy [frA, frB])).w = (get_max_frame_xy [frA, frB]).2 ∧
    (∀ i j, i < frA.h → j < frA.w →
      (pad_frame frA (get_max_frame_xy [frA, frB])).data i j = frA.data i j) ∧
    (∀ i j, i < (get_max_frame_xy [frA, frB]).1 → j < (get_max_frame_xy [frA, frB]).2 →
      frA.h ≤ i ∨ frA.w ≤ j →
      (pad_frame frA (get_max_frame_xy [frA, frB])).data i j = 0)) :=
  ⟨by simp, C1_canonical_canvas [frA, frB] frA (by simp)⟩

/-- An in-range index of a decimated axis maps back into the original axis. -/
lemma decimate_index_lt {n d i : Nat} (hd : 0 < d) (hi : i < (n + d - 1) / d) :
    d * i < n := by
  have h1 : (n + d - 1) / d * d ≤ n + d - 1 := Nat.div_mul_le_self _ _
  have h3 : (i + 1) * d ≤ (n + d - 1) / d * d := Nat.mul_le_mul_right d hi
  have h4 : i * d + d ≤ n + d - 1 := by
    calc i * d + d = (i + 1) * d := by ring
    _ ≤ (n + d - 1) / d * d := h3
    _ ≤ n + d - 1 := h1
  have h5 : d * i = i * d := Nat.mul_comm d i
  omega

/-- C2: the decimation factor is `maxDimension / 10000 + 1` (a no-op factor 1
whenever the longest dimension is under 10000 px); the decimated views are
strided subsamples starting at index 0 (element `(i,j)` comes from `(d*i, d*j)`
of the full frame, always in range); and the shift the estimator computes at
decimated resolution is multiplied elementwise by the factor on both axes
before being recorded as the round's shift. -/
theorem C2_downsample_policy (f : Frame) (est : Estimator) (d : Nat)
    (im_fix_small : Frame) (mov : MovRound) :
    down_sample f = max f.h f.w / 10000 + 1 ∧
    (max f.h f.w < 10000 → down_sample f = 1) ∧
    (∀ i j, i < (decimate (down_sample f) f).h → j < (decimate (down_sample f) f).w →
      (decimate (down_sample f) f).data i j
        = f.data (down_sample f * i) (down_sample f * j) ∧
      down_sample f * i < f.h ∧ down_sample f * j < f.w) ∧
    ((decimate 1 f).h = f.h ∧ (decimate 1 f).w = f.w ∧
      ∀ i j, (decimate 1 f).data i j = f.data i j) ∧
    (register_round est d im_fix_small mov).shift =
      ((est im_fix_small (decimate d mov.dapi) d).1.1 * d,
       (est im_fix_small (decimate d mov.dapi) d).1.2 * d) := by
  have hd : 0 < down_sample f := Nat.succ_pos _
  refine ⟨rfl, ?_, ?_, ⟨?_, ?_, ?_⟩, rfl⟩
  · intro h
    unfold down_sample
    rw [Nat.div_eq_of_lt h]
  · intro i j hi hj
    exact ⟨rfl, decimate_index_lt hd hi, decimate_index_lt hd hj⟩
  · show (f.h + 1 - 1) / 1 = f.h
    simp
  · show (f.w + 1 - 1) / 1 = f.w
    simp
  · intro i j
    show f.data (1 * i) (1 * j) = f.data i j
    rw [Nat.one_mul, Nat.one_mul]

/-- Witness for C2 at a concrete frame, estimator and round. -/
theorem C2_downsample_policy_witness :
    down_sample frA = 1 ∧
    (decimate (down_sample frA) frA).data 1 2 = frA.data (down_sample frA * 1) (down_sample frA * 2) ∧
    (register_round est0 1 frA ⟨"2", fr_textured, [frB]⟩).shift =
      ((est0 frA (decimate 1 fr_textured) 1).1.1 * 1,
       (est0 frA (decimate 1 fr_textured) 1).1.2 * 1) := by
  have h := C2_downsample_policy frA est0 1 frA ⟨"2", fr_textured, [frB]⟩
  exact ⟨h.2.1 (by decide), (h.2.2.1 1 2 (by decide) (by decide)).1, h.2.2.2.2⟩

lemma astype_int_intCast (d : Int) : astype_int (d : ℚ) = d := by
  unfold astype_int
  by_cases h : (0 : ℚ) ≤ (d : ℚ)
  · simp [h, Int.floor_intCast]
  · simp [h, Int.ceil_intCast]

lemma emod_add_cancel (n a b : Int) : (a % n + b) % n = (a + b) % n := by
  conv_rhs => rw [Int.add_emod]
  rw [Int.add_emod (a % n) b, Int.emod_emod_of_dvd _ dvd_rfl]

lemma emod_sub_cancel (n a b : Int) : (a % n - b) % n = (a - b) % n := by
  conv_rhs => rw [Int.sub_emod]
  rw [Int.sub_emod (a % n) b, Int.emod_emod_of_dvd _ dvd_rfl]

/-- Rolling an in-range index forward by `c` and then looking it up through the
backward wrap of `np_roll` lands on the original index. -/
lemma roll_index_cancel {n : Nat} (hn : 0 < n) (c : Int) {k : Nat} (hk : k < n) :
    ((((((k : Int) + c) % (n : Int)).toNat : Int) - c) % (n : Int)).toNat = k := by
  have hn' : ((n : Int)) ≠ 0 := by exact_mod_cast hn.ne'
  have h1 : (0 : Int) ≤ ((k : Int) + c) % (n : Int) := Int.emod_nonneg _ hn'
  rw [Int.toNat_of_nonneg h1, emod_sub_cancel, add_sub_cancel_right,
    Int.emod_eq_of_lt (Int.natCast_nonneg k) (by exact_mod_cast hk), Int.toNat_natCast]

/-- C3: applying a recorded integer shift `(dy, dx)` is the circular
(wraparound) translation of the frame: the shape is unchanged and the source
pixel `(i, j)` reappears at position `((i + dy) mod h, (j + dx) mod w)` —
content exiting one edge reappears at the opposite edge rather than being
clipped (the recorded real-valued shift is truncated to integer pixels, a
no-op on integer shifts). -/
theorem C3_wraparound_translation (f : Frame) (dy dx : Int)
    (h0 : 0 < f.h) (w0 : 0 < f.w) :
    (apply_shift f ((dy : ℚ), (dx : ℚ))).h = f.h ∧
    (apply_shift f ((dy : ℚ), (dx : ℚ))).w = f.w ∧
    ∀ i j, i < f.h → j < f.w →
      (apply_shift f ((dy : ℚ), (dx : ℚ))).data
        ((((i : Int) + dy) % (f.h : Int)).toNat)
        ((((j : Int) + dx) % (f.w : Int)).toNat) = f.data i j := by
  refine ⟨rfl, rfl, fun i j hi hj => ?_⟩
  show f.data
      (((((((i : Int) + dy) % (f.h : Int)).toNat : Int) - astype_int (dy : ℚ)) % (f.h : Int)).toNat)
      (((((((j : Int) + dx) % (f.w : Int)).toNat : Int) - astype_int (dx : ℚ)) % (f.w : Int)).toNat)
      = f.data i j
  rw [astype_int_intCast, astype_int_intCast, roll_index_cancel h0 dy hi,
    roll_index_cancel w0 dx hj]

/-- Witness for C3 at a concrete frame and shift. -/
theorem C3_wraparound_translation_witness :
    0 < fr_textured.h ∧ 0 < fr_textured.w ∧
    ((apply_shift fr_textured (((3 : Int) : ℚ), ((-1 : Int) : ℚ))).h = fr_textured.h ∧
    (apply_shift fr_textured (((3 : Int) : ℚ), ((-1 : Int) : ℚ))).w = fr_textured.w ∧
    ∀ i j, i < fr_textured.h → j < fr_textured.w →
      (apply_shift fr_textured (((3 : Int) : ℚ), ((-1 : Int) : ℚ))).data
        ((((i : Int) + (3 : Int)) % (fr_textured.h : Int)).toNat)
        ((((j : Int) + (-1 : Int)) % (fr_textured.w : Int)).toNat) = fr_textured.data i j) :=
  ⟨by decide, by decide,
    C3_wraparound_translation fr_textured 3 (-1) (by decide) (by decide)⟩

/-- The multiset of pixel values of a frame. -/
def pixels (f : Frame) : Multiset Int :=
  (Finset.univ : Finset (Fin f.h × Fin f.w)).val.map fun p => f.data p.1 p.2

/-- The wraparound index map of `np_roll` along one axis, as a bijection. -/
def roll_equiv (n : Nat) (c : Int) (hn : 0 < n) : Fin n ≃ Fin n where
  toFun i := ⟨((((i : Nat) : Int) - c) % (n : Int)).toNat, by
    have h1 := Int.emod_nonneg (((i : Nat) : Int) - c) (by exact_mod_cast hn.ne' : ((n : Int)) ≠ 0)
    have h2 := Int.emod_lt_of_pos (((i : Nat) : Int) - c) (by exact_mod_cast hn : (0 : Int) < (n : Int))
    omega⟩
  invFun i := ⟨((((i : Nat) : Int) + c) % (n : Int)).toNat, by
    have h1 := Int.emod_nonneg (((i : Nat) : Int) + c) (by exact_mod_cast hn.ne' : ((n : Int)) ≠ 0)
    have h2 := Int.emod_lt_of_pos (((i : Nat) : Int) + c) (by exact_mod_cast hn : (0 : Int) < (n : Int))
    omega⟩
  left_inv i := by
    apply Fin.ext
    show (((((((i : Nat) : Int) - c) % (n : Int)).toNat : Int) + c) % (n : Int)).toNat = (i : Nat)
    have hn' : ((n : Int)) ≠ 0 := by exact_mod_cast hn.ne'
    have h1 : (0 : Int) ≤ (((i : Nat) : Int) - c) % (n : Int) := Int.emod_nonneg _ hn'
    rw [Int.toNat_of_nonneg h1, emod_add_cancel, sub_add_cancel,
      Int.emod_eq_of_lt (Int.natCast_nonneg _) (by exact_mod_cast i.isLt), Int.toNat_natCast]
  right_inv i := by
    apply Fin.ext
    exact roll_index_cancel hn c i.isLt

/-- C10: `np_roll` is a pure permutation of the entries: the output frame has
exactly the same shape and exactly the same multiset of pixel values as the
input — no pixel value is created, lost or modified. -/
theorem C10_roll_is_permutation (f : Frame) (s : Int × Int)
    (h0 : 0 < f.h) (w0 : 0 < f.w) :
    (np_roll f s).h = f.h ∧ (np_roll f s).w = f.w ∧
    pixels (np_roll f s) = pixels f := by
  refine ⟨rfl, rfl, ?_⟩
  let e : Fin f.h × Fin f.w ≃ Fin f.h × Fin f.w :=
    (roll_equiv f.h s.1 h0).prodCongr (roll_equiv f.w s.2 w0)
  have huniv : (Finset.univ : Finset (Fin f.h × Fin f.w)).val.map (e : _ → _)
      = (Finset.univ : Finset (Fin f.h × Fin f.w)).val := by
    have h := Finset.map_univ_equiv e
    calc (Finset.univ : Finset (Fin f.h × Fin f.w)).val.map (e : _ → _)
        = (Finset.map e.toEmbedding Finset.univ).val := by
          simp [Finset.map_val]
      _ = (Finset.univ : Finset (Fin f.h × Fin f.w)).val := by rw [h]
  calc pixels (np_roll f s)
      = Multiset.map ((fun p : Fin f.h × Fin f.w => f.data p.1 p.2) ∘ (e : _ → _))
          (Finset.univ : Finset (Fin f.h × Fin f.w)).val := rfl
    _ = Multiset.map (fun p : Fin f.h × Fin f.w => f.data p.1 p.2)
          ((Finset.univ : Finset (Fin f.h × Fin f.w)).val.map (e : _ → _)) := by
          rw [Multiset.map_map]
    _ = pixels f := by rw [huniv]; rfl

/-- Witness for C10 at a concrete frame and shift. -/
theorem C10_roll_is_permutation_witness :
    0 < fr_textured.h ∧ 0 < fr_textured.w ∧
    ((np_roll fr_textured (1, -2)).h = fr_textured.h ∧
    (np_roll fr_textured (1, -2)).w = fr_textured.w ∧
    pixels (np_roll fr_textured (1, -2)) = pixels fr_textured) :=
  ⟨by decide, by decide,
    C10_roll_is_permutation fr_textured (1, -2) (by decide) (by decide)⟩

/-- C4: in every non-anchor round, the DAPI output and every marker output are
produced by applying one and the same shift — the round's single recorded
shift; that shift is a function of the reference (DAPI) frame alone and does
not depend on the marker frames, so it is never recomputed per channel. -/
theorem C4_single_shift_per_round (est : Estimator) (d : Nat) (im_fix_small : Frame)
    (mov : MovRound) :
    (register_round est d im_fix_small mov).dapiOut
      = apply_shift mov.dapi (register_round est d im_fix_small mov).shift ∧
    (register_round est d im_fix_small mov).markerOuts
      = mov.markers.map (fun g => apply_shift g (register_round est d im_fix_small mov).shift) ∧
    ∀ ms : List Frame,
      (register_round est d im_fix_small ⟨mov.id, mov.dapi, ms⟩).shift
        = (register_round est d im_fix_small mov).shift :=
  ⟨rfl, rfl, fun _ => rfl⟩

/-- C5 counterexample: a pair of uniform frames makes the spec-modelled
estimator signal `LowSignalError`, and because the main loop installs no
handler the whole run aborts: the result is the error, not a result list in
which the degenerate round carries a flagged zero shift while the other round
(here round "2", which is non-uniform) is still processed. -/
theorem C5_counterexample :
    uniformB (decimate 1 fr_uniform_a) = true ∧ uniformB fr_uniform_b = true ∧
    process_rounds_e est_spec 1 (decimate 1 fr_uniform_a)
        [⟨"2", fr_textured, []⟩, ⟨"3", fr_uniform_b, []⟩]
      = Except.error RegFailure.lowSignal := by
  refine ⟨rfl, rfl, rfl⟩

/-- C5 (amended): when the estimator signals a failure on the first-processed
round (the last of the list, since `dapis.pop()` pops from the back), the
uncaught signal aborts the entire run: no zero-shift substitution happens and
no other round is processed. -/
theorem C5_run_aborts_on_low_signal (est : EstimatorE) (d : Nat) (im_fix_small : Frame)
    (ms : List MovRound) (m : MovRound) (e : RegFailure)
    (hsig : est im_fix_small (decimate d m.dapi) d = .error e) :
    process_rounds_e est d im_fix_small (ms ++ [m]) = .error e := by
  unfold process_rounds_e
  rw [List.reverse_append]
  simp [List.mapM.loop, register_round_e, hsig]
  rfl

/-- Witness for the amended C5 at a concrete run. -/
theorem C5_run_aborts_on_low_signal_witness :
    est_spec (decimate 1 fr_uniform_a) (decimate 1 fr_uniform_b) 1
        = Except.error RegFailure.lowSignal ∧
    process_rounds_e est_spec 1 (decimate 1 fr_uniform_a)
        ([⟨"4", fr_textured, [frB]⟩] ++ [⟨"5", fr_uniform_b, []⟩])
      = Except.error RegFailure.lowSignal :=
  ⟨rfl, C5_run_aborts_on_low_signal est_spec 1 (decimate 1 fr_uniform_a)
    [⟨"4", fr_textured, [frB]⟩] ⟨"5", fr_uniform_b, []⟩ RegFailure.lowSignal rfl⟩

/-- C6 counterexample: two enumerations of the same set of reference frames
(the same two file identities, permuted) select different anchors, so the
anchor is not a function of the set alone. -/
theorem C6_counterexample :
    (["r1", "r2"] : List String).Perm ["r2", "r1"] ∧
    select_anchor ["r1", "r2"] ≠ select_anchor ["r2", "r1"] :=
  ⟨List.Perm.swap "r2" "r1" [], by decide⟩

/-- C6 (amended): the anchor is the last reference frame in enumeration
order — deterministic as a function of the ordered list (and always one of its
members), but dependent on the enumeration order, not on the set alone. -/
theorem C6_anchor_is_last (dapis : List String) (h : dapis ≠ []) :
    select_anchor dapis = some (dapis.getLast h) ∧ dapis.getLast h ∈ dapis :=
  ⟨List.getLast?_eq_getLast dapis h, List.getLast_mem h⟩

/-- Witness for the amended C6 at a concrete enumeration. -/
theorem C6_anchor_is_last_witness :
    select_anchor ["r1", "r2"] = some "r2" ∧ ("r2" : String) ∈ ["r1", "r2"] := by
  have h := C6_anchor_is_last ["r1", "r2"] (by decide)
  exact ⟨h.1, h.2⟩

/-- C7 counterexample: one imaging round with id "2" and two DAPI frames — the
DAPI count (2) does not match the round count (1), yet the guard passes,
because the code compares `str(len(dapis))` against `max(rounds)` (the
lexicographically greatest round id), not against the number of rounds. -/
theorem C7_counterexample :
    counts_guard [['2']] 2 = true ∧ ([['2']] : List (List Char)).length ≠ 2 :=
  ⟨rfl, by decide⟩

/-- C7 (amended): an empty input set is fatal (the memory check's `max` raises
before anything is registered); past that, the run proceeds iff the decimal
string of the DAPI count equals the lexicographically greatest round id and
the count is at least 2 — this coincides with count-vs-round matching when the
round ids are exactly "1".."n" (single digits), but not in general. -/
theorem C7_empty_and_guard :
    (∀ avail : Nat, mem_check [] avail = none) ∧
    (∀ n : Nat, n < 10 → 2 ≤ n →
      counts_guard ((List.range n).map fun i => (toString (i + 1)).data) n = true) ∧
    (∀ (rounds : List (List Char)) (numDapis : Nat), counts_guard rounds numDapis = true →
      2 ≤ numDapis ∧ (toString numDapis).data = py_str_max rounds) := by
  refine ⟨fun _ => rfl, by decide, ?_⟩
  intro rounds numDapis h
  unfold counts_guard at h
  rw [Bool.and_eq_true] at h
  exact ⟨by simpa using h.2, by simpa using h.1⟩

/-- Witness for the amended C7. -/
theorem C7_empty_and_guard_witness :
    mem_check [] 100 = none ∧
    counts_guard ((List.range 3).map fun i => (toString (i + 1)).data) 3 = true :=
  ⟨C7_empty_and_guard.1 100, C7_empty_and_guard.2.1 3 (by decide) (by decide)⟩

lemma two_largest_sum_le (sizes : List Nat) :
    two_largest_sum sizes ≤ 2 * sizes.foldl (fun m x => max m x) 0 := by
  simp only [two_largest_sum]
  have h2 : (sizes.erase (sizes.foldl (fun m x => max m x) 0)).foldl
      (fun m x => max m x) 0 ≤ sizes.foldl (fun m x => max m x) 0 := by
    apply foldl_max_le (fun x => x) (Nat.zero_le _)
    intro x hx
    exact le_foldl_max (fun x => x) (List.mem_of_mem_erase hx)
  omega

/-- C8 counterexample (reg_multiplex.py / reg.py variant): the check sums the
sizes of the FIRST TWO enumerated files, not the two largest; with sizes
`[1, 1, 10]` and 12 units of available memory the two largest frames (11)
exceed the 75% budget (9), yet the check passes and the run proceeds. -/
theorem C8_counterexample :
    two_largest_sum [1, 1, 10] = 11 ∧
    ((11 : ℚ) > (12 : ℚ) * (3 / 4)) ∧
    mem_check_first_two [1, 1, 10] 12 = some true := by
  refine ⟨rfl, by norm_num, ?_⟩
  have hX : ¬ (((1 : Nat) : ℚ) + ((1 : Nat) : ℚ) > ((12 : Nat) : ℚ) * (3 / 4)) := by
    push_cast
    norm_num
  show some (decide ¬(((1 : Nat) : ℚ) + ((1 : Nat) : ℚ) > ((12 : Nat) : ℚ) * (3 / 4)))
      = some true
  rw [decide_eq_true hX]

/-- C8 (amended, the reg_wsi check): `mem_check` compares twice the largest
file size against 80% of available memory before any frame is read; since
twice the largest bounds the sum of the two largest, the run does fail fast
whenever the two largest frames exceed that budget. -/
theorem C8_memcheck_fail_fast (s : Nat) (rest : List Nat) (avail : Nat)
    (hbig : ((two_largest_sum (s :: rest) : Nat) : ℚ) > ((avail : Nat) : ℚ) * (4 / 5)) :
    mem_check (s :: rest) avail = some false := by
  have hle : ((two_largest_sum (s :: rest) : Nat) : ℚ)
      ≤ (((s :: rest).foldl (fun m x => max m x) 0 : Nat) : ℚ) * 2 := by
    have h := two_largest_sum_le (s :: rest)
    have h' : ((two_largest_sum (s :: rest) : Nat) : ℚ)
        ≤ ((2 * (s :: rest).foldl (fun m x => max m x) 0 : Nat) : ℚ) := Nat.cast_le.mpr h
    push_cast at h'
    linarith
  have hP : (((s :: rest).foldl (fun m x => max m x) 0 : Nat) : ℚ) * 2
      > ((avail : Nat) : ℚ) * (4 / 5) := lt_of_lt_of_le hbig hle
  show some (decide ¬((((s :: rest).foldl (fun m x => max m x) 0 : Nat) : ℚ) * 2
      > ((avail : Nat) : ℚ) * (4 / 5))) = some false
  rw [decide_eq_false (not_not_intro hP)]

/-- Witness for the amended C8. -/
theorem C8_memcheck_fail_fast_witness :
    (((two_largest_sum (5 :: [4]) : Nat) : ℚ) > ((10 : Nat) : ℚ) * (4 / 5)) ∧
    mem_check (5 :: [4]) 10 = some false := by
  have hbig : ((two_largest_sum (5 :: [4]) : Nat) : ℚ) > ((10 : Nat) : ℚ) * (4 / 5) := by
    rw [show two_largest_sum (5 :: [4]) = 9 from rfl]
    push_cast
    norm_num
  exact ⟨hbig, C8_memcheck_fail_fast 5 [4] 10 hbig⟩

lemma upd_errors_map (rounds : List String) (g : String → ℚ) (k : String) (v : ℚ) :
    upd_errors (rounds.map fun r => (r, g r)) k v
      = rounds.map fun r => (r, if r = k then v else g r) := by
  unfold upd_errors
  rw [List.map_map]
  apply List.map_congr_left
  intro a _
  by_cases h : a = k
  · simp [h]
  · simp [h]

/-- The error table after the loop maps every round id — the anchor's
included — to the last error recorded for it (seeded 0 when none was). -/
lemma main_errors_eq (rounds : List String) (recs : List (String × ℚ)) :
    main_errors rounds recs = rounds.map fun r => (r, err_of recs r) := by
  suffices H : ∀ (recs : List (String × ℚ)) (g : String → ℚ),
      recs.foldl (fun tbl p => upd_errors tbl p.1 p.2) (rounds.map fun r => (r, g r))
        = rounds.map fun r =>
            (r, recs.foldl (fun acc p => if r = p.1 then p.2 else acc) (g r)) by
    simpa [main_errors, err_of] using H recs fun _ => 0
  intro recs
  induction recs with
  | nil => intro g; rfl
  | cons p ps ih =>
    intro g
    simp only [List.foldl_cons]
    rw [upd_errors_map rounds g p.1 p.2, ih fun r => if r = p.1 then p.2 else g r]

lemma err_of_not_mem (r : String) :
    ∀ recs : List (String × ℚ), r ∉ recs.map Prod.fst → err_of recs r = 0 := by
  intro recs
  unfold err_of
  induction recs with
  | nil => intro _; rfl
  | cons p ps ih =>
    intro h
    simp only [List.map_cons, List.mem_cons] at h
    push_neg at h
    simp only [List.foldl_cons, if_neg h.1]
    exact ih h.2

/-- C9 counterexample: two rounds "1" and "2" with anchor "2" (the last popped
DAPI) and one registered round "1" with error 5 — the error dict is seeded for
ALL rounds, so the report has two entries, not one per non-anchor round, and
the anchor id "2" appears in it (with the sentinel error 0). -/
theorem C9_counterexample :
    select_anchor ["1", "2"] = some "2" ∧
    main_errors ["1", "2"] [("1", 5)] = [("1", 5), ("2", 0)] ∧
    ("2", (0 : ℚ)) ∈ displacement_report (main_errors ["1", "2"] [("1", 5)]) ∧
    (displacement_report (main_errors ["1", "2"] [("1", 5)])).length ≠ 1 := by
  refine ⟨rfl, rfl, ?_, ?_⟩
  · apply (List.mergeSort_perm (main_errors ["1", "2"] [("1", 5)]) _).mem_iff.mpr
    rw [show main_errors ["1", "2"] [("1", 5)] = [("1", 5), ("2", 0)] from rfl]
    simp
  · have hlen : (displacement_report (main_errors ["1", "2"] [("1", 5)])).length = 2 := by
      unfold displacement_report
      rw [(List.mergeSort_perm _ _).length_eq]
      rfl
    omega

/-- C9 (amended): the report is a permutation of one entry per round — the
anchor round included, carrying its seeded error 0 — where every entry maps a
round id to the error last recorded for it, and the emitted order is ranked by
error descending. -/
theorem C9_report_ranked_with_anchor (rounds : List String) (recs : List (String × ℚ))
    (anchor : String) (hanc : anchor ∈ rounds) (hnot : anchor ∉ recs.map Prod.fst) :
    (displacement_report (main_errors rounds recs)).Perm
        (rounds.map fun r => (r, err_of recs r)) ∧
    (anchor, (0 : ℚ)) ∈ displacement_report (main_errors rounds recs) ∧
    (displacement_report (main_errors rounds recs)).Pairwise fun a b => b.2 ≤ a.2 := by
  have hperm : (displacement_report (main_errors rounds recs)).Perm
      (main_errors rounds recs) := List.mergeSort_perm _ _
  have heq := main_errors_eq rounds recs
  refine ⟨heq ▸ hperm, ?_, ?_⟩
  · apply hperm.mem_iff.mpr
    rw [heq]
    exact List.mem_map.mpr ⟨anchor, hanc, by rw [err_of_not_mem anchor recs hnot]⟩
  · have hs := @List.sorted_mergeSort (String × ℚ) (fun a b => decide (b.2 ≤ a.2))
      (fun a b c hab hbc => by
        simp only [decide_eq_true_eq] at hab hbc ⊢
        exact le_trans hbc hab)
      (fun a b => by
        simp only [Bool.or_eq_true, decide_eq_true_eq]
        exact le_total b.2 a.2)
      (main_errors rounds recs)
    exact hs.imp fun h => by simpa using h

/-- Witness for the amended C9. -/
theorem C9_report_ranked_with_anchor_witness :
    ("9", (0 : ℚ)) ∈ displacement_report (main_errors ["3", "9"] [("3", 7)]) :=
  (C9_report_ranked_with_anchor ["3", "9"] [("3", 7)] "9" (by simp) (by simp)).2.1

end MultiplexReg
